import Mathlib

/-!
Verification development for the MedMiner repository.

The repository extracts structured medical facts from doctor's letters with
an LLM-driven pipeline (extraction → processing nodes → storage) and offers a
terminology-matching tool querying a SNOMED CT concept repository.

The shallow embedding below translates the pure core of the available source
(`examples/snomed_browser.ipynb`) directly; components of the `medminer`
package that the sources only reference (the `SNOMEDTool`, the workflow
engine, the storage sink, the extractor) are modelled from the specification,
each such definition marked `Modelled from the spec:` in its doc comment.
-/

namespace MedMiner

/-- A concept record returned by the concept repository: the concept
identifier and the canonical display term (the FSN term, `x["fsn"]["term"]`
in `snomed_browser`). -/
structure ConceptMatch where
  conceptId : String
  fsnTerm : String
deriving DecidableEq, Repr

/-- The ranking relation used by `snomed_browser`: ascending length of the
canonical (FSN) display term, `key=lambda x: len(x["fsn"]["term"])`. -/
def lenLe (a b : ConceptMatch) : Prop :=
  a.fsnTerm.length ≤ b.fsnTerm.length

instance : DecidableRel lenLe :=
  fun a b => inferInstanceAs (Decidable (a.fsnTerm.length ≤ b.fsnTerm.length))

instance : IsTotal ConceptMatch lenLe :=
  ⟨fun a b => Nat.le_total a.fsnTerm.length b.fsnTerm.length⟩

instance : IsTrans ConceptMatch lenLe :=
  ⟨fun _ _ _ => Nat.le_trans⟩

/-- Sorting by ascending canonical-term length, embedding Python's
`sorted(filtered_matches, key=lambda x: len(x["fsn"]["term"]))`. -/
def sortByLen (l : List ConceptMatch) : List ConceptMatch :=
  List.insertionSort lenLe l

/-- Embedding of `snomed_browser` from `examples/snomed_browser.ipynb`,
with the HTTP round trip abstracted: `items` is the parsed `items` field of
the JSON response. The list comprehension keeps every match (its
`definitionStatus` condition is commented out in the source), the matches are
sorted ascending by FSN term length, and truncated to `limit`
(`filtered_matches[:limit]`), whose source default is 100. -/
def snomed_browser (items : List ConceptMatch) (limit : Nat := 100) :
    List ConceptMatch :=
  let filtered_matches := items.filter (fun _ => true)
  (sortByLen filtered_matches).take limit

/-- Embedding of the query parameters built by `snomed_browser`: the fixed
`activeFilter`/`termActive` flags and the ECL expression
`< 71388002|Procedure| \x7b\x7b term = ("<term>") \x7d\x7d`. The
`semanticTag` function parameter of the source is never read, so it is an
unused argument here as well. -/
def snomedBrowserParams (term : String) (semanticTag : String) :
    List (String × String) :=
  [("activeFilter", "true"),
   ("termActive", "true"),
   ("ecl", "< 71388002|Procedure| \x7b\x7b term = (\"" ++ term ++ "\") \x7d\x7d")]

/-- Fuel-driven replacement of every occurrence of the pattern `pat` by
`sub` in a character list; the fuel bounds the recursion and a fuel of the
input's length always suffices (each step consumes at least one input
character). Helper for `applySynonym`. -/
def replaceAllFuel (pat sub : List Char) : Nat → List Char → List Char
  | 0, s => s
  | _ + 1, [] => []
  | fuel + 1, c :: rest =>
    if pat ≠ [] ∧ pat.isPrefixOf (c :: rest) then
      sub ++ replaceAllFuel pat sub fuel ((c :: rest).drop pat.length)
    else
      c :: replaceAllFuel pat sub fuel rest

/-- Replace every occurrence of `pat` by `sub` in a string. -/
def replaceAll (pat sub s : String) : String :=
  String.mk (replaceAllFuel pat.data sub.data s.data.length s.data)

/-- Modelled from the spec: applying one phrase→synonym substitution of the
synonym map to the search term (`SNOMEDTool` in `medminer/tools/procedure.py`
is not among the sources). -/
def applySynonym (term : String) (syn : String × String) : String :=
  replaceAll syn.1 syn.2 term

/-- Keep the first entry for every key, dropping later entries whose key was
already seen. Helper for query-variant sets and result merging. -/
def dedupByKeyAux {α κ : Type} [DecidableEq κ] (key : α → κ)
    (seen : List κ) : List α → List α
  | [] => []
  | x :: xs =>
    if key x ∈ seen then dedupByKeyAux key seen xs
    else x :: dedupByKeyAux key (key x :: seen) xs

/-- Deduplicate a list by a key function, first occurrence wins. -/
def dedupByKey {α κ : Type} [DecidableEq κ] (key : α → κ) (l : List α) :
    List α :=
  dedupByKeyAux key [] l

/-- Modelled from the spec: the set of query variants built by
`SNOMEDTool._build_ecl_queries` (not among the sources) from a free-text
term, a phrase→synonym map and a list of abbreviations: the original term,
the term with each synonym substitution applied, and each literal
abbreviation as a standalone expression; empty strings contribute no variant
(an empty term with no synonyms and no abbreviations yields an empty set)
and duplicates are collapsed. -/
def buildQueryVariants (term : String) (synonyms : List (String × String))
    (abbreviations : List String) : List String :=
  dedupByKey (fun s => s)
    (([term] ++ synonyms.map (applySynonym term) ++ abbreviations).filter
      (fun s => s ≠ ""))

/-- The ECL search expression issued for one query variant, rooted at the
SNOMED CT Procedure hierarchy as in `snomed_browser`. -/
def eclQuery (variant : String) : String :=
  "< 71388002|Procedure| \x7b\x7b term = (\"" ++ variant ++ "\") \x7d\x7d"

/-- Modelled from the spec: the full list of ECL queries built by
`SNOMEDTool._build_ecl_queries` (not among the sources), one per query
variant. -/
def buildEclQueries (term : String) (synonyms : List (String × String))
    (abbreviations : List String) : List String :=
  (buildQueryVariants term synonyms abbreviations).map eclQuery

/-- Modelled from the spec: merging the per-variant result lists of the
terminology tool, deduplicating by concept identifier with the first
occurrence winning (`SNOMEDTool.forward`, not among the sources). -/
def mergeResults (variantResults : List (List ConceptMatch)) :
    List ConceptMatch :=
  dedupByKey ConceptMatch.conceptId variantResults.flatten

/-- Modelled from the spec: the success-path semantics of
`SNOMEDTool.forward` (not among the sources): build the query variants,
fetch each variant's matches from the concept repository (abstracted as
`fetch`), merge and deduplicate by concept identifier, rank ascending by
canonical-term length, truncate to `limit`. -/
def forwardTool (fetch : String → List ConceptMatch) (term : String)
    (synonyms : List (String × String)) (abbreviations : List String)
    (limit : Nat) : List ConceptMatch :=
  let variants := buildQueryVariants term synonyms abbreviations
  let merged := mergeResults (variants.map fetch)
  (sortByLen merged).take limit

/-- The number of search requests the tool issues: one per query variant. -/
def forwardRequestCount (term : String) (synonyms : List (String × String))
    (abbreviations : List String) : Nat :=
  (buildQueryVariants term synonyms abbreviations).length

/-- The observable outcome of one HTTP search request against the concept
repository: the service was unreachable, or it answered with a status code
and (for successful statuses) a list of concept records. -/
inductive HttpOutcome where
  | unreachable
  | response (status : Nat) (items : List ConceptMatch)
deriving DecidableEq, Repr

/-- The failure surfaced by the terminology tool, per the spec a
`LookupError`: the external service was unreachable or returned an error
status. -/
inductive ToolLookupError where
  | unreachable
  | httpStatus (code : Nat)
deriving DecidableEq, Repr

/-- Whether an HTTP outcome is a success (a 2xx response). -/
def HttpOutcome.ok2xx : HttpOutcome → Bool
  | .unreachable => false
  | .response status _ => 200 ≤ status && status < 300

/-- Modelled from the spec: one search request of the terminology tool
(`SNOMEDTool`, not among the sources): a network failure or a non-2xx
response surfaces as a `LookupError`; a 2xx response yields its concept
records. -/
def searchConcepts : HttpOutcome → Except ToolLookupError (List ConceptMatch)
  | .unreachable => .error .unreachable
  | .response status items =>
    if 200 ≤ status && status < 300 then .ok items
    else .error (.httpStatus status)

/-- Issue the variants' search requests in order, stopping at the first
failure, as a sequential loop over the variants does. -/
def collectResults (respond : String → HttpOutcome) :
    List String → Except ToolLookupError (List (List ConceptMatch))
  | [] => .ok []
  | v :: vs =>
    match searchConcepts (respond v), collectResults respond vs with
    | .error e, _ => .error e
    | .ok _, .error e => .error e
    | .ok r, .ok rs => .ok (r :: rs)

/-- Modelled from the spec: the error-aware semantics of
`SNOMEDTool.forward` (not among the sources): every variant's request must
succeed, else the first `LookupError` is surfaced; on success the merged,
ranked, truncated list is returned. -/
def forwardWith (respond : String → HttpOutcome) (term : String)
    (synonyms : List (String × String)) (abbreviations : List String)
    (limit : Nat) : Except ToolLookupError (List ConceptMatch) :=
  match collectResults respond (buildQueryVariants term synonyms abbreviations) with
  | .error e => .error e
  | .ok results => .ok ((sortByLen (mergeResults results)).take limit)

/-- A loaded document: identifier (patient/document id) and raw text body,
as constructed in the example notebooks (`Document(file.stem, f.read())`). -/
structure Document where
  docId : String
  content : String
deriving DecidableEq, Repr

/-- Modelled from the spec: the per-task pipeline state
(`ExtractuionState` in `medminer/workflows/base/schema.py`, not among the
sources): identifier and letter text from `DoctorsLetterState`, plus the
optional raw extracted payload, processed payload and output location, each
absent until its stage has run. -/
structure ExtractuionState (Raw Processed : Type) where
  patient_id : String
  letter : String
  raw_data : Option Raw
  processed_data : Option Processed
  output_path : Option String
deriving DecidableEq, Repr

/-- Modelled from the spec: a processing node
(`BaseNode` in `medminer/workflows/base/node.py`, not among the sources). A
node reads the state (raw and processed fields included) and computes a new
processed payload; its `run` writes only the processed-payload field. -/
structure BaseNode (Raw Processed : Type) where
  body : ExtractuionState Raw Processed → Option Processed

/-- Running a node on a state: only the processed payload is replaced. -/
def BaseNode.run {Raw Processed : Type} (n : BaseNode Raw Processed)
    (s : ExtractuionState Raw Processed) : ExtractuionState Raw Processed :=
  { s with processed_data := n.body s }

/-- Modelled from the spec: the default no-op passthrough node. -/
def NoProcessing {Raw Processed : Type} : BaseNode Raw Processed :=
  ⟨fun s => s.processed_data⟩

/-- The initial state built from a document at pipeline entry. -/
def initState {Raw Processed : Type} (d : Document) :
    ExtractuionState Raw Processed :=
  ⟨d.docId, d.content, none, none, none⟩

/-- Modelled from the spec: the extraction stage
(`InformationExtractor`, not among the sources) seen as a state transformer:
it fills the raw extracted payload from the letter text and touches nothing
else (`extract` abstracts the validated LLM call). -/
def runExtractionNode {Raw Processed : Type} (extract : String → Raw)
    (s : ExtractuionState Raw Processed) : ExtractuionState Raw Processed :=
  { s with raw_data := some (extract s.letter) }

/-- Modelled from the spec: the storage stage (`DataStorage`, not among the
sources) seen as a state transformer: it records the output location. -/
def runStorageNode {Raw Processed : Type} (path : String)
    (s : ExtractuionState Raw Processed) : ExtractuionState Raw Processed :=
  { s with output_path := some path }

/-- Modelled from the spec: the compiled linear pipeline of
`BaseExtractionWorkflow` (not among the sources):
START → Extraction → Processing[1..n] → Storage → END, run on one
document. -/
def runPipeline {Raw Processed : Type} (extract : String → Raw)
    (nodes : List (BaseNode Raw Processed)) (path : String) (d : Document) :
    ExtractuionState Raw Processed :=
  runStorageNode path
    (nodes.foldl (fun s n => n.run s) (runExtractionNode extract (initState d)))

/-- A row of the tabular storage file: the header row or one data row. -/
inductive CsvRow where
  | header (columns : List String)
  | data (fields : List String)
deriving DecidableEq, Repr

/-- Whether a row is the header row. -/
def CsvRow.isHeader : CsvRow → Bool
  | .header _ => true
  | .data _ => false

/-- Modelled from the spec: one write of the storage sink (`DataStorage`,
not among the sources) to a tabular file: if no file exists at the path yet
(`none`), a fresh file with a header row and the records is created; else
the records are appended to the existing rows, without a second header. -/
def writeRecords (columns : List String) (existing : Option (List CsvRow))
    (records : List (List String)) : List CsvRow :=
  match existing with
  | none => CsvRow.header columns :: records.map CsvRow.data
  | some rows => rows ++ records.map CsvRow.data

/-- The error raised by the extractor when the model's output cannot be
validated within the retry budget. -/
inductive ExtractionError where
  | invalidOutput
deriving DecidableEq, Repr

/-- Fueled re-prompt loop of the extractor: attempt `i` asks the model once
(`outputs i`) and keeps the payload when it validates against the response
schema (`valid`); otherwise it re-prompts until the fuel is exhausted. -/
def extractLoop {Raw : Type} (outputs : Nat → Raw) (valid : Raw → Bool) :
    Nat → Nat → Except ExtractionError Raw
  | _, 0 => .error .invalidOutput
  | i, fuel + 1 =>
    if valid (outputs i) then .ok (outputs i)
    else extractLoop outputs valid (i + 1) fuel

/-- Modelled from the spec: the structured extractor
(`InformationExtractor`, not among the sources): one model call plus up to
`retries` re-prompts on schema-validation failure, then an
`ExtractionError`. `outputs i` is the model's payload on the i-th attempt,
`valid` the schema validation. -/
def extractStructured {Raw : Type} (outputs : Nat → Raw)
    (valid : Raw → Bool) (retries : Nat) : Except ExtractionError Raw :=
  extractLoop outputs valid 0 (retries + 1)

end MedMiner

namespace MedMiner

theorem sortByLen_sorted (l : List ConceptMatch) :
    List.Pairwise lenLe (sortByLen l) :=
  List.sorted_insertionSort lenLe l

/-- C1: for every term searched (i.e. every response-item list), the list
returned by `snomed_browser` is ordered non-decreasingly by the length of
each match's canonical display term, its length is at most the configured
limit, and the default limit is 100. -/
theorem snomed_browser_ranked_and_limited (items : List ConceptMatch)
    (limit : Nat) :
    List.Pairwise lenLe (snomed_browser items limit) ∧
    (snomed_browser items limit).length ≤ limit ∧
    snomed_browser items = snomed_browser items 100 := by
  refine ⟨?_, ?_, rfl⟩
  · exact (sortByLen_sorted _).sublist (List.take_sublist _ _)
  · simp [snomed_browser, List.length_take]

/-- C10: every search request built by `snomed_browser` carries
`activeFilter=true` and `termActive=true` and an ECL expression rooted at the
fixed SNOMED CT Procedure hierarchy `< 71388002|Procedure|`, independent of
the input term; the `semanticTag` argument does not influence the request, so
the hierarchy root is not configurable per call. -/
theorem snomed_browser_params_fixed (term semanticTag : String) :
    (snomedBrowserParams term semanticTag).lookup "activeFilter" = some "true" ∧
    (snomedBrowserParams term semanticTag).lookup "termActive" = some "true" ∧
    (snomedBrowserParams term semanticTag).lookup "ecl" =
      some ("< 71388002|Procedure| \x7b\x7b term = (\"" ++ term ++ "\") \x7d\x7d") ∧
    (∃ rest, "< 71388002|Procedure| \x7b\x7b term = (\"" ++ term ++ "\") \x7d\x7d" =
      "< 71388002|Procedure|" ++ rest) ∧
    ∀ other, snomedBrowserParams term other = snomedBrowserParams term semanticTag := by
  refine ⟨rfl, rfl, rfl, ?_, fun _ => rfl⟩
  exact ⟨" \x7b\x7b term = (\"" ++ term ++ "\") \x7d\x7d", rfl⟩

theorem dedupByKeyAux_nodup {α κ : Type} [DecidableEq κ] (key : α → κ) :
    ∀ (l : List α) (seen : List κ),
      ((dedupByKeyAux key seen l).map key).Nodup ∧
      ∀ k ∈ (dedupByKeyAux key seen l).map key, k ∉ seen := by
  intro l
  induction l with
  | nil => intro seen; simp [dedupByKeyAux]
  | cons x xs ih =>
    intro seen
    by_cases h : key x ∈ seen
    · simpa [dedupByKeyAux, h] using ih seen
    · obtain ⟨hnd, hni⟩ := ih (key x :: seen)
      simp only [dedupByKeyAux, if_neg h, List.map_cons]
      refine ⟨List.nodup_cons.mpr ⟨fun hm => (hni _ hm) (List.mem_cons_self _ _), hnd⟩, ?_⟩
      intro k hk
      rcases List.mem_cons.mp hk with hk | hk
      · exact hk ▸ h
      · exact fun hks => (hni _ hk) (List.mem_cons_of_mem _ hks)

theorem dedupByKeyAux_find {α κ : Type} [DecidableEq κ] (key : α → κ) :
    ∀ (l : List α) (seen : List κ) (c : α), c ∈ dedupByKeyAux key seen l →
      key c ∉ seen ∧ l.find? (fun m => decide (key m = key c)) = some c := by
  intro l
  induction l with
  | nil => intro seen c hc; simp [dedupByKeyAux] at hc
  | cons x xs ih =>
    intro seen c hc
    by_cases h : key x ∈ seen
    · have hc' : c ∈ dedupByKeyAux key seen xs := by
        simpa [dedupByKeyAux, h] using hc
      obtain ⟨h1, h2⟩ := ih seen c hc'
      have hne : ¬ key x = key c := fun he => h1 (he ▸ h)
      refine ⟨h1, ?_⟩
      simp [List.find?_cons, hne, h2]
    · rw [dedupByKeyAux, if_neg h] at hc
      rcases List.mem_cons.mp hc with rfl | hc
      · exact ⟨h, by simp [List.find?_cons]⟩
      · obtain ⟨h1, h2⟩ := ih (key x :: seen) c hc
        have hne : ¬ key x = key c := fun he => h1 (he ▸ List.mem_cons_self _ _)
        refine ⟨fun hs => h1 (List.mem_cons_of_mem _ hs), ?_⟩
        simp [List.find?_cons, hne, h2]

theorem find?_flatten_decompose {α : Type} (p : α → Bool) :
    ∀ (vs : List (List α)) (c : α), vs.flatten.find? p = some c →
      ∃ i, ∃ h : i < vs.length, (vs.get ⟨i, h⟩).find? p = some c ∧
        ∀ j, ∀ hj : j < vs.length, j < i → (vs.get ⟨j, hj⟩).find? p = none := by
  intro vs
  induction vs with
  | nil => intro c hc; simp at hc
  | cons v vs ih =>
    intro c hc
    rw [List.flatten_cons] at hc
    cases hv : v.find? p with
    | some c' =>
      have hcc : some c' = some c := by rw [← hc]; simp [List.find?_append, hv]
      refine ⟨0, by simp, ?_, ?_⟩
      · show List.find? p v = some c
        rw [hv]; exact hcc
      · intro j hj hj0; omega
    | none =>
      have hc' : vs.flatten.find? p = some c := by
        rw [← hc]; simp [List.find?_append, hv]
      obtain ⟨i, hi, h1, h2⟩ := ih c hc'
      refine ⟨i + 1, by simpa using Nat.succ_lt_succ hi, h1, ?_⟩
      intro j hj hji
      match j, hj with
      | 0, _ => simpa [List.get] using hv
      | j' + 1, hj =>
        exact h2 j' (by simpa using Nat.lt_of_succ_lt_succ hj)
          (Nat.lt_of_succ_lt_succ hji)

/-- C2: merging the per-variant result lists yields no two entries with the
same concept identifier, and every kept entry stems from the first variant
in which its concept identifier occurred at all (every earlier variant is
free of that identifier). -/
theorem merged_results_first_wins (vs : List (List ConceptMatch)) :
    ((mergeResults vs).map ConceptMatch.conceptId).Nodup ∧
    ∀ c, c ∈ mergeResults vs →
      ∃ i, ∃ h : i < vs.length, c ∈ vs.get ⟨i, h⟩ ∧
        ∀ j, ∀ hj : j < vs.length, j < i →
          ∀ d ∈ vs.get ⟨j, hj⟩, d.conceptId ≠ c.conceptId := by
  constructor
  · exact (dedupByKeyAux_nodup ConceptMatch.conceptId vs.flatten []).1
  · intro c hc
    obtain ⟨-, hfind⟩ := dedupByKeyAux_find ConceptMatch.conceptId vs.flatten [] c hc
    obtain ⟨i, hi, h1, h2⟩ := find?_flatten_decompose _ vs c hfind
    refine ⟨i, hi, List.mem_of_find?_eq_some h1, ?_⟩
    intro j hj hji d hd
    have hfd := List.find?_eq_none.mp (h2 j hj hji) d hd
    simpa using hfd

/-- Witness for C2 at a concrete input: the identifier `111` occurs in both
variants' results and the kept entry is the one of the first variant. -/
theorem merged_results_first_wins_witness :
    ∃ i, ∃ h : i < ([[ConceptMatch.mk "111" "Alpha"],
        [ConceptMatch.mk "111" "Beta", ConceptMatch.mk "222" "Gamma"]] :
        List (List ConceptMatch)).length,
      ConceptMatch.mk "111" "Alpha" ∈
        ([[ConceptMatch.mk "111" "Alpha"],
          [ConceptMatch.mk "111" "Beta", ConceptMatch.mk "222" "Gamma"]] :
          List (List ConceptMatch)).get ⟨i, h⟩ ∧
      ∀ j, ∀ hj : j < ([[ConceptMatch.mk "111" "Alpha"],
          [ConceptMatch.mk "111" "Beta", ConceptMatch.mk "222" "Gamma"]] :
          List (List ConceptMatch)).length, j < i →
        ∀ d ∈ ([[ConceptMatch.mk "111" "Alpha"],
            [ConceptMatch.mk "111" "Beta", ConceptMatch.mk "222" "Gamma"]] :
            List (List ConceptMatch)).get ⟨j, hj⟩,
          d.conceptId ≠ (ConceptMatch.mk "111" "Alpha").conceptId :=
  (merged_results_first_wins _).2 (ConceptMatch.mk "111" "Alpha") (by decide)

/-- C3: with an empty term, no synonyms and no abbreviations the query-variant
set is empty, the tool returns an empty list (not an error) and issues no
network request. -/
theorem empty_variants_empty_result :
    buildQueryVariants "" [] [] = [] ∧
    (∀ fetch limit, forwardTool fetch "" [] [] limit = []) ∧
    forwardRequestCount "" [] [] = 0 ∧
    ∀ respond limit, forwardWith respond "" [] [] limit = .ok [] := by
  refine ⟨rfl, ?_, rfl, ?_⟩
  · intro fetch limit
    simp [forwardTool, buildQueryVariants, dedupByKey, dedupByKeyAux,
      mergeResults, sortByLen, List.insertionSort]
  · intro respond limit
    simp [forwardWith, buildQueryVariants, dedupByKey, dedupByKeyAux,
      collectResults, mergeResults, sortByLen, List.insertionSort]

theorem searchConcepts_ok_of (o : HttpOutcome) (h : o.ok2xx = true) :
    ∃ r, searchConcepts o = .ok r := by
  cases o with
  | unreachable => simp [HttpOutcome.ok2xx] at h
  | response status items =>
    refine ⟨items, ?_⟩
    simp only [HttpOutcome.ok2xx] at h
    simp [searchConcepts, h]

theorem searchConcepts_err_of (o : HttpOutcome) (h : o.ok2xx = false) :
    ∃ e, searchConcepts o = .error e := by
  cases o with
  | unreachable => exact ⟨.unreachable, rfl⟩
  | response status items =>
    refine ⟨.httpStatus status, ?_⟩
    simp only [HttpOutcome.ok2xx] at h
    simp [searchConcepts, h]

theorem collectResults_ok (respond : String → HttpOutcome) :
    ∀ l : List String, (∀ v ∈ l, (respond v).ok2xx = true) →
      ∃ rs, collectResults respond l = .ok rs := by
  intro l
  induction l with
  | nil => exact fun _ => ⟨[], rfl⟩
  | cons x xs ih =>
    intro hall
    obtain ⟨r, hr⟩ := searchConcepts_ok_of (respond x) (hall x (List.mem_cons_self _ _))
    obtain ⟨rs, hrs⟩ := ih (fun v hv => hall v (List.mem_cons_of_mem _ hv))
    exact ⟨r :: rs, by simp [collectResults, hr, hrs]⟩

theorem collectResults_err (respond : String → HttpOutcome) :
    ∀ (l : List String) (v : String), v ∈ l → (respond v).ok2xx = false →
      ∃ e, collectResults respond l = .error e := by
  intro l
  induction l with
  | nil => intro v hv; simp at hv
  | cons x xs ih =>
    intro v hv hbad
    rcases List.mem_cons.mp hv with rfl | hv
    · obtain ⟨e, he⟩ := searchConcepts_err_of (respond v) hbad
      exact ⟨e, by simp [collectResults, he]⟩
    · cases hx : searchConcepts (respond x) with
      | error e => exact ⟨e, by simp [collectResults, hx]⟩
      | ok r =>
        obtain ⟨e, he⟩ := ih v hv hbad
        exact ⟨e, by simp [collectResults, hx, he]⟩

/-- C4: whenever the concept-repository service is unreachable or answers a
query variant with a non-2xx status (`ok2xx` false), the terminology tool
surfaces the failure as a `LookupError`; when every variant's request
succeeds it returns normally with a result list. -/
theorem forward_surfaces_lookup_error (respond : String → HttpOutcome)
    (term : String) (synonyms : List (String × String))
    (abbreviations : List String) (limit : Nat) :
    ((∃ v ∈ buildQueryVariants term synonyms abbreviations,
        (respond v).ok2xx = false) →
      ∃ e, forwardWith respond term synonyms abbreviations limit = .error e) ∧
    ((∀ v ∈ buildQueryVariants term synonyms abbreviations,
        (respond v).ok2xx = true) →
      ∃ rs, forwardWith respond term synonyms abbreviations limit = .ok rs) := by
  constructor
  · rintro ⟨v, hv, hbad⟩
    obtain ⟨e, he⟩ := collectResults_err respond _ v hv hbad
    exact ⟨e, by simp [forwardWith, he]⟩
  · intro hall
    obtain ⟨rs, hrs⟩ := collectResults_ok respond _ hall
    exact ⟨(sortByLen (mergeResults rs)).take limit, by simp [forwardWith, hrs]⟩

/-- Witness for C4 at concrete inputs: a 503 answer surfaces as a
`LookupError`, a 200 answer returns normally. -/
theorem forward_surfaces_lookup_error_witness :
    (∃ e, forwardWith (fun _ => HttpOutcome.response 503 [])
      "hip replacement" [] [] 100 = .error e) ∧
    ∃ rs, forwardWith (fun _ => HttpOutcome.response 200 [])
      "hip replacement" [] [] 100 = .ok rs :=
  ⟨(forward_surfaces_lookup_error (fun _ => HttpOutcome.response 503 [])
      "hip replacement" [] [] 100).1 (by decide),
   (forward_surfaces_lookup_error (fun _ => HttpOutcome.response 200 [])
      "hip replacement" [] [] 100).2 (by decide)⟩

/-- C5: invoked with term "Computed Cranial Tomography", synonym map
Cranial→Head and abbreviation list ["cCT"], the tool builds exactly the 3
distinct query variants (original term, synonym-substituted term, standalone
abbreviation), hence 3 distinct ECL queries, and for every repository
response its final result list is ranked ascending by canonical-term
length. -/
theorem cct_scenario :
    buildQueryVariants "Computed Cranial Tomography" [("Cranial", "Head")] ["cCT"] =
      ["Computed Cranial Tomography", "Computed Head Tomography", "cCT"] ∧
    (buildEclQueries "Computed Cranial Tomography" [("Cranial", "Head")] ["cCT"]).length = 3 ∧
    (buildEclQueries "Computed Cranial Tomography" [("Cranial", "Head")] ["cCT"]).Nodup ∧
    ∀ fetch limit, List.Pairwise lenLe
      (forwardTool fetch "Computed Cranial Tomography" [("Cranial", "Head")] ["cCT"] limit) := by
  refine ⟨by decide, by decide, by decide, ?_⟩
  intro fetch limit
  exact (sortByLen_sorted _).sublist (List.take_sublist _ _)

theorem foldl_run_patient_id {Raw Processed : Type} :
    ∀ (l : List (BaseNode Raw Processed)) (s : ExtractuionState Raw Processed),
      (l.foldl (fun s n => n.run s) s).patient_id = s.patient_id := by
  intro l
  induction l with
  | nil => intro s; rfl
  | cons n ns ih => intro s; rw [List.foldl_cons, ih]; rfl

/-- C6: running the full pipeline (extraction, processing nodes, storage) on
a document returns a state whose identifier equals the document's
identifier, and the identifier is unchanged after every intermediate stage
(after extraction and after each prefix of the node chain). -/
theorem pipeline_preserves_identifier {Raw Processed : Type}
    (extract : String → Raw) (nodes : List (BaseNode Raw Processed))
    (path : String) (d : Document) :
    (runPipeline extract nodes path d).patient_id = d.docId ∧
    (runExtractionNode extract (initState d) :
      ExtractuionState Raw Processed).patient_id = d.docId ∧
    ∀ k, ((nodes.take k).foldl (fun s n => n.run s)
      (runExtractionNode extract (initState d))).patient_id = d.docId := by
  refine ⟨?_, rfl, ?_⟩
  · show ((nodes.foldl (fun s n => n.run s)
      (runExtractionNode extract (initState d)))).patient_id = d.docId
    rw [foldl_run_patient_id]; rfl
  · intro k
    rw [foldl_run_patient_id]; rfl

/-- C7: a processing node's `run` returns a state with the same identifier,
letter, raw extracted payload and output location as the input state; only
the processed payload is (re)computed. -/
theorem node_run_frame {Raw Processed : Type} (n : BaseNode Raw Processed)
    (s : ExtractuionState Raw Processed) :
    (n.run s).patient_id = s.patient_id ∧
    (n.run s).letter = s.letter ∧
    (n.run s).raw_data = s.raw_data ∧
    (n.run s).output_path = s.output_path ∧
    (n.run s).processed_data = n.body s :=
  ⟨rfl, rfl, rfl, rfl, rfl⟩

theorem countP_isHeader_map_data :
    ∀ l : List (List String), (l.map CsvRow.data).countP CsvRow.isHeader = 0 := by
  intro l
  induction l with
  | nil => rfl
  | cons x xs ih => simp [List.countP_cons, CsvRow.isHeader, ih]

/-- C8: writing `rs1` to a fresh path yields exactly one header row followed
by the data rows; a subsequent write of `rs2` to the same path appends the
new data rows without a second header row and leaves the earlier rows
unchanged. -/
theorem storage_header_and_append (columns : List String)
    (rs1 rs2 : List (List String)) :
    writeRecords columns none rs1 =
      CsvRow.header columns :: rs1.map CsvRow.data ∧
    (writeRecords columns none rs1).length = 1 + rs1.length ∧
    (writeRecords columns none rs1).countP CsvRow.isHeader = 1 ∧
    writeRecords columns (some (writeRecords columns none rs1)) rs2 =
      writeRecords columns none rs1 ++ rs2.map CsvRow.data ∧
    (writeRecords columns (some (writeRecords columns none rs1)) rs2).countP
      CsvRow.isHeader = 1 ∧
    (writeRecords columns (some (writeRecords columns none rs1)) rs2).take
      (writeRecords columns none rs1).length = writeRecords columns none rs1 := by
  refine ⟨rfl, ?_, ?_, rfl, ?_, ?_⟩
  · simp [writeRecords]; omega
  · simp [writeRecords, List.countP_cons, CsvRow.isHeader, countP_isHeader_map_data]
  · simp [writeRecords, List.countP_cons, List.countP_append, CsvRow.isHeader,
      countP_isHeader_map_data]
  · show (writeRecords columns none rs1 ++ rs2.map CsvRow.data).take
      (writeRecords columns none rs1).length = writeRecords columns none rs1
    simp [List.take_append_eq_append_take]

theorem extractLoop_ok_valid {Raw : Type} (outputs : Nat → Raw)
    (valid : Raw → Bool) :
    ∀ (fuel i : Nat) (p : Raw),
      extractLoop outputs valid i fuel = .ok p → valid p = true := by
  intro fuel
  induction fuel with
  | zero => intro i p h; exact absurd h (by simp [extractLoop])
  | succ fuel ih =>
    intro i p h
    rw [extractLoop] at h
    by_cases hv : valid (outputs i) = true
    · rw [if_pos hv] at h
      cases h
      exact hv
    · rw [if_neg hv] at h
      exact ih (i + 1) p h

theorem extractLoop_all_invalid {Raw : Type} (outputs : Nat → Raw)
    (valid : Raw → Bool) :
    ∀ (fuel i : Nat), (∀ k, k < fuel → valid (outputs (i + k)) = false) →
      extractLoop outputs valid i fuel = .error .invalidOutput := by
  intro fuel
  induction fuel with
  | zero => intro i _; rfl
  | succ fuel ih =>
    intro i h
    have h0 : valid (outputs i) = false := by
      simpa using h 0 (Nat.succ_pos fuel)
    rw [extractLoop, if_neg (by simp [h0])]
    refine ih (i + 1) ?_
    intro k hk
    have := h (k + 1) (Nat.succ_lt_succ hk)
    simpa [Nat.add_assoc, Nat.add_comm 1 k] using this

/-- C9: the structured extractor never returns a payload failing schema
validation: a returned payload always validates, and if every attempt within
the retry budget (one initial call plus `retries` re-prompts) produces an
invalid payload, an `ExtractionError` is raised. -/
theorem extractor_valid_or_error {Raw : Type} (outputs : Nat → Raw)
    (valid : Raw → Bool) (retries : Nat) :
    (∀ p, extractStructured outputs valid retries = .ok p → valid p = true) ∧
    ((∀ i, i ≤ retries → valid (outputs i) = false) →
      extractStructured outputs valid retries = .error .invalidOutput) := by
  constructor
  · intro p h
    exact extractLoop_ok_valid outputs valid (retries + 1) 0 p h
  · intro hall
    refine extractLoop_all_invalid outputs valid (retries + 1) 0 ?_
    intro k hk
    simpa using hall k (Nat.lt_succ_iff.mp hk)

/-- Witness for C9 at concrete inputs: an always-valid model output is
returned (and validates), an always-invalid one exhausts two re-prompts and
raises the extraction error. -/
theorem extractor_valid_or_error_witness :
    ((fun _ : Nat => true) 42 = true) ∧
    extractStructured (fun i => i) (fun _ => false) 2 = .error .invalidOutput :=
  ⟨(extractor_valid_or_error (fun _ => (42 : Nat)) (fun _ => true) 0).1 42 rfl,
   (extractor_valid_or_error (fun i => i) (fun _ => false) 2).2 (fun _ _ => rfl)⟩

end MedMiner
